import Mathlib

/-!
A shallow embedding of `bpmdelay_pingpong.cpp` (a BPM-synchronized ping-pong
stereo delay effect for the Korg NTS-1).  Audio samples, knob values and delay
times are modelled as exact rationals (`ℚ`) standing in for the C `float`s;
machine-integer masking with `DELAY_LINE_SIZE_MASK = 0x3FFFF` is rendered as
reduction modulo `DELAY_LINE_SIZE = 0x40000` (for a power of two,
`x & (2^k - 1) = x % 2^k`).  The two delay lines are total functions
`ℕ → ℚ` read and written at masked indices; the mutable globals of the C file
become the fields of `FxState`, and each entry point (`DELFX_INIT`,
`DELFX_PROCESS`, `DELFX_PARAM`) becomes a pure state transformer.
-/

namespace BpmDelay

/-- Constant `NUM_DELAY_DIVISIONS = 15` — number of BPM divisions in the table. -/
def NUM_DELAY_DIVISIONS : ℕ := 15

/-- Constant `DELAY_LINE_SIZE = 0x40000` — delay line size (a power of two). -/
def DELAY_LINE_SIZE : ℕ := 0x40000

/-- Constant `DELAY_LINE_SIZE_MASK = 0x3FFFF` — mask for delay-line rollover. -/
def DELAY_LINE_SIZE_MASK : ℕ := 0x3FFFF

/-- Constant `DELAY_GLIDE_RATE = 12000` — glide divisor, must not be below 1. -/
def DELAY_GLIDE_RATE : ℚ := 12000

/-- Constant `MIN_BPM = 56` — failsafe tempo. -/
def MIN_BPM : ℚ := 56

/-- Constant `NUM_NOTES_PER_BEAT = 4` — quarter-note reference. -/
def NUM_NOTES_PER_BEAT : ℚ := 4

/-- Constant `SAMPLE_RATE = 48000` — fixed sample rate. -/
def SAMPLE_RATE : ℚ := 48000

/-- The `delayDivisions` table:
`{0.015625,.02083333,.03125,.04166666,.0625f,.08333333f,.125f,.16666667f,.1875f,.25f,.33333333f,.375f,.5f,.75f,1}`. -/
def delayDivisions : List ℚ :=
  [0.015625, 0.02083333, 0.03125, 0.04166666, 0.0625, 0.08333333, 0.125,
   0.16666667, 0.1875, 0.25, 0.33333333, 0.375, 0.5, 0.75, 1]

/-- Modelled from the spec: the three control ids of `SetControl`
(time-division selection, feedback depth, wet/dry mix position).  The numeric
values come from the SDK header `userdelfx.h`, which is not part of this
repository's sources; only their distinctness matters here. -/
def k_user_delfx_param_time : ℕ := 0

/-- Modelled from the spec: control id for the feedback-depth knob. -/
def k_user_delfx_param_depth : ℕ := 1

/-- Modelled from the spec: control id for the wet/dry (shift-depth) knob. -/
def k_user_delfx_param_shift_depth : ℕ := 2

/-- The mutable globals of `bpmdelay_pingpong.cpp`, gathered into one state
record: the two delay lines, the shared write cursor, the glide state, and the
knob-derived scalars. -/
structure FxState where
  delayLine_L : ℕ → ℚ
  delayLine_R : ℕ → ℚ
  delayLine_Wr : ℕ
  currentDelayTime : ℚ
  targetDelayTime : ℚ
  valDepth : ℚ
  valTime : ℚ
  multiplier : ℚ
  wet : ℚ
  dry : ℚ

/-- Entry point `DELFX_INIT`: clear both delay lines, reset the write cursor, set the
delay time to one second (48000 samples), zero the knob values and set the
mix to 50/50. -/
def DELFX_INIT : FxState :=
  { delayLine_L := fun _ => 0
    delayLine_R := fun _ => 0
    delayLine_Wr := 0
    currentDelayTime := SAMPLE_RATE
    targetDelayTime := SAMPLE_RATE
    valDepth := 0
    valTime := 0
    multiplier := 1
    wet := 0.5
    dry := 0.5 }

/-- Modelled from the spec: `interpolateLinear(fraction, a, b)`, the
logue-sdk `linintf` primitive (declared in the SDK headers, not in this
repository's sources): standard linear interpolation `x0 + fr * (x1 - x0)`. -/
def linintf (fr x0 x1 : ℚ) : ℚ := x0 + fr * (x1 - x0)

/-- Pointwise store into a delay line: `line[i] = v`. -/
def writeLine (line : ℕ → ℚ) (i : ℕ) (v : ℚ) : ℕ → ℚ :=
  fun j => if j = i then v else line j

/-- Routine `readFrac(pos, pDelayLine)`: split `pos` into integer base and fractional
remainder (`(uint32_t)pos` truncates; for the non-negative positions the
caller supplies this is the floor), fetch the two samples at the masked
indices `base` and `base+1`, and linearly interpolate between them. -/
def readFrac (pos : ℚ) (pDelayLine : ℕ → ℚ) : ℚ :=
  let base : ℕ := (⌊pos⌋).toNat
  let frac : ℚ := pos - (base : ℚ)
  let s0 : ℚ := pDelayLine (base % DELAY_LINE_SIZE)
  let s1 : ℚ := pDelayLine ((base + 1) % DELAY_LINE_SIZE)
  linintf frac s0 s1

/-- One glide step of the delay-time smoothing:
`currentDelayTime += (targetDelayTime - currentDelayTime) / DELAY_GLIDE_RATE`. -/
def glideStep (target current : ℚ) : ℚ :=
  current + (target - current) / DELAY_GLIDE_RATE

/-- The read-index computation of the sample loop: `delayLine_Wr -
currentDelayTime`, wrapped by adding `DELAY_LINE_SIZE_MASK` when negative. -/
def wrapReadIndex (wr : ℕ) (current : ℚ) : ℚ :=
  let readIndex : ℚ := (wr : ℚ) - current
  if readIndex < 0 then readIndex + (DELAY_LINE_SIZE_MASK : ℚ) else readIndex

/-- The body of the per-sample loop of `DELFX_PROCESS`, for one interleaved
stereo frame `(sigInL, sigInR)`: advance the glide, read the delayed right
signal, write the right input into the right line, seed the left line with the
attenuated delayed right signal, read the delayed left signal, accumulate its
attenuated value into the right line, advance the write cursor, and mix the
outputs with `wet`/`dry`. -/
def processSample (input : ℚ × ℚ) (s : FxState) : (ℚ × ℚ) × FxState :=
  let currentDelayTime := glideStep s.targetDelayTime s.currentDelayTime
  let readIndex := wrapReadIndex s.delayLine_Wr currentDelayTime
  let delayLineSig_R := readFrac readIndex s.delayLine_R
  let dlR1 := writeLine s.delayLine_R s.delayLine_Wr input.2
  let dlL1 := writeLine s.delayLine_L s.delayLine_Wr (delayLineSig_R * s.valDepth)
  let delayLineSig_L := readFrac readIndex dlL1
  let dlR2 := writeLine dlR1 s.delayLine_Wr
      (dlR1 s.delayLine_Wr + delayLineSig_L * s.valDepth)
  ((input.1 * s.dry + delayLineSig_L * s.wet,
    input.2 * s.dry + delayLineSig_R * s.wet),
   { s with
      delayLine_L := dlL1
      delayLine_R := dlR2
      delayLine_Wr := (s.delayLine_Wr + 1) % DELAY_LINE_SIZE
      currentDelayTime := currentDelayTime })

/-- The sample loop of `DELFX_PROCESS` over a list of interleaved frames,
returning the transformed frames and the final state. -/
def processSamples : List (ℚ × ℚ) → FxState → List (ℚ × ℚ) × FxState
  | [], s => ([], s)
  | a :: rest, s =>
    let r := processSample a s
    let rr := processSamples rest r.2
    (r.1 :: rr.1, rr.2)

/-- Entry point `DELFX_PROCESS(xn, frames)`: fetch the tempo (`bpmF0`, the value returned
by `fx_get_bpmf()`), apply the `bpmF <= 0` failsafe, recompute
`targetDelayTime = SAMPLE_RATE * (60 / bpmF) * NUM_NOTES_PER_BEAT *
multiplier`, then run the per-sample loop over the buffer. -/
def DELFX_PROCESS (bpmF0 : ℚ) (xn : List (ℚ × ℚ)) (s : FxState) :
    List (ℚ × ℚ) × FxState :=
  let bpmF := if bpmF0 ≤ 0 then MIN_BPM else bpmF0
  let bpm_s := 60 / bpmF
  processSamples xn
    { s with targetDelayTime := SAMPLE_RATE * bpm_s * NUM_NOTES_PER_BEAT * s.multiplier }

/-- C truncation of a `float` to `int` (round toward zero). -/
def ratTrunc (q : ℚ) : ℤ := if q < 0 then ⌈q⌉ else ⌊q⌋

/-- The raw division-table index of the time-knob handler:
`divIndex = (int)(valf * (NUM_DELAY_DIVISIONS - 1))`. -/
def divIndexRaw (valf : ℚ) : ℤ := ratTrunc (valf * ((NUM_DELAY_DIVISIONS : ℚ) - 1))

/-- The failsafe of the time-knob handler:
`if ((divIndex >= NUM_DELAY_DIVISIONS) || (divIndex < 0)) divIndex =
NUM_DELAY_DIVISIONS - 1`. -/
def divClamp (i : ℤ) : ℤ :=
  if (NUM_DELAY_DIVISIONS : ℤ) ≤ i ∨ i < 0 then (NUM_DELAY_DIVISIONS : ℤ) - 1 else i

/-- Entry point `DELFX_PARAM(index, value)` after the boundary conversion
`valf = q31_to_f32(value)`: dispatch on the control id, updating the
multiplier (time), the feedback depth (depth), or the wet/dry pair
(shift-depth) via the three-segment `s_mix` curve; unknown ids are ignored. -/
def DELFX_PARAM (index : ℕ) (valf : ℚ) (s : FxState) : FxState :=
  if index = k_user_delfx_param_time then
    { s with
        valTime := valf
        multiplier := delayDivisions.getD (divClamp (divIndexRaw valf)).toNat 0 }
  else if index = k_user_delfx_param_depth then
    { s with valDepth := valf }
  else if index = k_user_delfx_param_shift_depth then
    let s_mix : ℚ :=
      if valf ≤ 0.49 then 1.02040816326530612244 * valf
      else if 0.51 ≤ valf then 0.5 + 1.02 * (valf - 0.51)
      else 0.5
    { s with dry := 1 - s_mix, wet := s_mix }
  else s

/-- An IEEE-754-style value for the tempo returned by the host: a finite
rational, an infinity, or a NaN.  Used to settle the claim about non-finite
tempos, which the rational model alone cannot express. -/
inductive FloatVal where
  | fin (q : ℚ)
  | posInf
  | negInf
  | nan
deriving DecidableEq

/-- The IEEE comparison `x <= 0` (in particular `NaN <= 0` and `+inf <= 0`
are false, `-inf <= 0` is true). -/
def FloatVal.le0 : FloatVal → Bool
  | .fin q => decide (q ≤ 0)
  | .posInf => false
  | .negInf => true
  | .nan => false

/-- Finiteness predicate on `FloatVal`. -/
def FloatVal.isFinite : FloatVal → Bool
  | .fin _ => true
  | _ => false

/-- The tempo failsafe of `DELFX_PROCESS` (`if (bpmF <= 0) bpmF = MIN_BPM;`)
lifted to IEEE-style values. -/
def bpmFailsafe (b : FloatVal) : FloatVal :=
  if b.le0 then .fin MIN_BPM else b

/-- A sequence of `DELFX_PROCESS` calls, each with its own tempo reading and
frame count, every input frame zero. -/
def processZeroCalls : List (ℚ × ℕ) → FxState → List (List (ℚ × ℚ)) × FxState
  | [], s => ([], s)
  | c :: rest, s =>
    let r := DELFX_PROCESS c.1 (List.replicate c.2 (0, 0)) s
    let rr := processZeroCalls rest r.2
    (r.1 :: rr.1, rr.2)

/-- A sequence of `DELFX_PARAM` calls folded over a state. -/
def paramCalls : List (ℕ × ℚ) → FxState → FxState
  | [], s => s
  | c :: rest, s => paramCalls rest (DELFX_PARAM c.1 c.2 s)

/-- The glide recurrence iterated from `c` toward a held target. -/
def glideIter (target c : ℚ) : ℕ → ℚ
  | 0 => c
  | n + 1 => glideStep target (glideIter target c n)

/-- The state reached after feeding the first `n` frames of the stream `inp`
through the per-sample loop. -/
def runState (inp : ℕ → ℚ × ℚ) (s : FxState) : ℕ → FxState
  | 0 => s
  | n + 1 => (processSample (inp n) (runState inp s n)).2

/-- The output frame produced for the `n`-th frame of the stream `inp`. -/
def runOut (inp : ℕ → ℚ × ℚ) (s : FxState) (n : ℕ) : ℚ × ℚ :=
  (processSample (inp n) (runState inp s n)).1

/-- A unit impulse on the right input channel at frame 0, silence elsewhere. -/
def impulseInput : ℕ → ℚ × ℚ := fun n => (0, if n = 0 then 1 else 0)

/-- The state used for the ping-pong impulse-response scenario: freshly
initialized lines and cursor, a glide already settled at `T` samples, feedback
depth `d`, division multiplier `mult`, and mix coefficients `w`/`dr`. -/
def pingPongStart (T : ℕ) (d mult w dr : ℚ) : FxState :=
  { DELFX_INIT with
      currentDelayTime := (T : ℚ)
      valDepth := d
      multiplier := mult
      wet := w
      dry := dr }

/-- The impulse response the code actually produces for the scenario of
`pingPongStart`: the dry click at frame 0, the first (unattenuated) echo on
the right at offset `T`, the first left echo `d * w` at offset `2T`, the
second right echo `d² * w` at offset `3T`, and silence at every other frame. -/
def pingPongExpected (T : ℕ) (d w dr : ℚ) (k : ℕ) : ℚ × ℚ :=
  if k = 0 then (0, dr)
  else if k = T then (0, w)
  else if k = 2 * T then (d * w, 0)
  else if k = 3 * T then (0, d * d * w)
  else (0, 0)

/-- Invariant describing the whole effect state after the first `n` frames of
the impulse-response scenario have been processed. -/
def pingPongInv (T : ℕ) (d mult w dr : ℚ) (n : ℕ) (s : FxState) : Prop :=
  s.delayLine_Wr = n ∧
  s.currentDelayTime = (T : ℚ) ∧
  s.targetDelayTime = (T : ℚ) ∧
  s.valDepth = d ∧
  s.multiplier = mult ∧
  s.wet = w ∧
  s.dry = dr ∧
  (∀ i, s.delayLine_R i =
    if i = 0 ∧ 1 ≤ n then 1
    else if i = 2 * T ∧ 2 * T < n then d * d
    else 0) ∧
  (∀ i, s.delayLine_L i =
    if i = T ∧ T < n then d
    else if i = 3 * T ∧ 3 * T < n then d * d * d
    else 0)

/-! ### Helper lemmas -/

lemma writeLine_self (line : ℕ → ℚ) (i : ℕ) (v : ℚ) : writeLine line i v i = v := by
  simp [writeLine]

lemma writeLine_other (line : ℕ → ℚ) (i j : ℕ) (v : ℚ) (h : j ≠ i) :
    writeLine line i v j = line j := by
  simp [writeLine, h]

lemma writeLine_writeLine (line : ℕ → ℚ) (i : ℕ) (v1 v2 : ℚ) :
    writeLine (writeLine line i v1) i v2 = writeLine line i v2 := by
  funext j
  by_cases h : j = i <;> simp [writeLine, h]

lemma floor_toNat_cast (p : ℚ) (hp : 0 ≤ p) : (((⌊p⌋).toNat : ℕ) : ℚ) = (⌊p⌋ : ℚ) := by
  have h0 : (0 : ℤ) ≤ ⌊p⌋ := Int.floor_nonneg.mpr hp
  exact_mod_cast congrArg (fun z : ℤ => (z : ℚ)) (Int.toNat_of_nonneg h0)

lemma readFrac_natCast (B : ℕ) (line : ℕ → ℚ) :
    readFrac (B : ℚ) line = line (B % DELAY_LINE_SIZE) := by
  simp [readFrac, linintf]

/-- Core equation for C6: `readFrac` is exactly `s0 + frac * (s1 - s0)`. -/
lemma readFrac_eq (pDelayLine : ℕ → ℚ) (p : ℚ) (hp : 0 ≤ p) :
    readFrac p pDelayLine
      = pDelayLine ((⌊p⌋).toNat % DELAY_LINE_SIZE)
        + (p - (⌊p⌋ : ℚ)) *
          (pDelayLine (((⌊p⌋).toNat + 1) % DELAY_LINE_SIZE)
            - pDelayLine ((⌊p⌋).toNat % DELAY_LINE_SIZE)) := by
  simp only [readFrac, linintf, floor_toNat_cast p hp]

/-! ### Claim theorems -/

/-- C6: for every delay-line buffer and every non-negative position `p`,
`readFrac p buffer` equals `s0 + frac * (s1 - s0)` where `s0`, `s1` are the
stored samples at the masked indices `⌊p⌋` and `⌊p⌋ + 1` and
`frac = p - ⌊p⌋`; and the result lies between `min s0 s1` and `max s0 s1`
inclusive. -/
theorem readFrac_interpolation_bounds (pDelayLine : ℕ → ℚ) (p : ℚ) (hp : 0 ≤ p) :
    readFrac p pDelayLine
      = pDelayLine ((⌊p⌋).toNat % DELAY_LINE_SIZE)
        + (p - (⌊p⌋ : ℚ)) *
          (pDelayLine (((⌊p⌋).toNat + 1) % DELAY_LINE_SIZE)
            - pDelayLine ((⌊p⌋).toNat % DELAY_LINE_SIZE)) ∧
    min (pDelayLine ((⌊p⌋).toNat % DELAY_LINE_SIZE))
        (pDelayLine (((⌊p⌋).toNat + 1) % DELAY_LINE_SIZE)) ≤ readFrac p pDelayLine ∧
    readFrac p pDelayLine ≤
      max (pDelayLine ((⌊p⌋).toNat % DELAY_LINE_SIZE))
          (pDelayLine (((⌊p⌋).toNat + 1) % DELAY_LINE_SIZE)) := by
  set s0 := pDelayLine ((⌊p⌋).toNat % DELAY_LINE_SIZE) with hs0
  set s1 := pDelayLine (((⌊p⌋).toNat + 1) % DELAY_LINE_SIZE) with hs1
  have heq := readFrac_eq pDelayLine p hp
  have hf0 : 0 ≤ p - (⌊p⌋ : ℚ) := sub_nonneg.mpr (Int.floor_le p)
  have hf1 : p - (⌊p⌋ : ℚ) < 1 := by
    have := Int.lt_floor_add_one p
    linarith
  refine ⟨heq, ?_, ?_⟩ <;> rw [heq] <;> rcases le_total s0 s1 with h | h
  · rw [min_eq_left h]; nlinarith
  · rw [min_eq_right h]; nlinarith
  · rw [max_eq_right h]; nlinarith
  · rw [max_eq_left h]; nlinarith

/-- Witness for C6 at the concrete position `p = 5/2` over the line
`i ↦ i`: the interpolated read lies above the lower neighboring sample. -/
theorem readFrac_interpolation_bounds_witness :
    (0 : ℚ) ≤ 5 / 2 ∧
    min ((fun i : ℕ => (i : ℚ)) ((⌊(5/2 : ℚ)⌋).toNat % DELAY_LINE_SIZE))
        ((fun i : ℕ => (i : ℚ)) (((⌊(5/2 : ℚ)⌋).toNat + 1) % DELAY_LINE_SIZE))
      ≤ readFrac (5/2) (fun i : ℕ => (i : ℚ)) :=
  ⟨by norm_num,
   (readFrac_interpolation_bounds (fun i : ℕ => (i : ℚ)) (5/2) (by norm_num)).2.1⟩

/-- C3 counterexample: at `v = 0.49` the wet coefficient computed by the
shift-depth handler is `1.02040816326530612244 * 0.49` (the constant written
in the source), which differs, as an exact value, from the spec's
`1.0204081633 * 0.49`. -/
theorem mix_law_spec_constant_counterexample :
    (DELFX_PARAM k_user_delfx_param_shift_depth 0.49 DELFX_INIT).wet
      ≠ (1.0204081633 : ℚ) * 0.49 := by
  norm_num [DELFX_PARAM, k_user_delfx_param_shift_depth, k_user_delfx_param_time,
    k_user_delfx_param_depth, DELFX_INIT]

/-- C3 (amended): the wet/dry mapping of the shift-depth handler: for
`v ≤ 0.49`, `wet = 1.02040816326530612244 * v` (the source's constant, which
rounds to the spec's `1.0204081633`) and `dry = 1 - wet`; for `0.51 ≤ v`,
`wet = 0.5 + 1.02 * (v - 0.51)` and `dry = 1 - wet`; in the dead zone
`0.49 < v < 0.51`, `wet = dry = 0.5`. -/
theorem delfx_param_mix_law (s : FxState) (v : ℚ) :
    (v ≤ 0.49 →
      (DELFX_PARAM k_user_delfx_param_shift_depth v s).wet
          = 1.02040816326530612244 * v ∧
      (DELFX_PARAM k_user_delfx_param_shift_depth v s).dry
          = 1 - 1.02040816326530612244 * v) ∧
    (0.51 ≤ v →
      (DELFX_PARAM k_user_delfx_param_shift_depth v s).wet
          = 0.5 + 1.02 * (v - 0.51) ∧
      (DELFX_PARAM k_user_delfx_param_shift_depth v s).dry
          = 1 - (0.5 + 1.02 * (v - 0.51))) ∧
    (0.49 < v → v < 0.51 →
      (DELFX_PARAM k_user_delfx_param_shift_depth v s).wet = 0.5 ∧
      (DELFX_PARAM k_user_delfx_param_shift_depth v s).dry = 0.5) := by
  refine ⟨fun h1 => ?_, fun h2 => ?_, fun h3 h4 => ?_⟩
  · simp [DELFX_PARAM, k_user_delfx_param_shift_depth, k_user_delfx_param_time,
      k_user_delfx_param_depth, h1]
  · have h1' : ¬ v ≤ 0.49 := by norm_num; linarith
    simp [DELFX_PARAM, k_user_delfx_param_shift_depth, k_user_delfx_param_time,
      k_user_delfx_param_depth, h1', h2]
  · have h3' : ¬ v ≤ 0.49 := by norm_num; linarith
    have h4' : ¬ 0.51 ≤ v := by norm_num; linarith
    simp [DELFX_PARAM, k_user_delfx_param_shift_depth, k_user_delfx_param_time,
      k_user_delfx_param_depth, h3', h4']
    norm_num

/-- Witness for C3 (amended) at `v = 0.3`, in the lower segment. -/
theorem delfx_param_mix_law_witness :
    (DELFX_PARAM k_user_delfx_param_shift_depth 0.3 DELFX_INIT).wet
        = 1.02040816326530612244 * 0.3 ∧
    (DELFX_PARAM k_user_delfx_param_shift_depth 0.3 DELFX_INIT).dry
        = 1 - 1.02040816326530612244 * 0.3 :=
  (delfx_param_mix_law DELFX_INIT 0.3).1 (by norm_num)

/-- C4 counterexample: at the top extreme `v = 1` the code computes
`wet = 0.5 + 1.02 * 0.49 = 0.9998` and `dry = 0.0002`, nowhere near the
spec's claimed `wet ≈ 1.0201` and `dry ≈ -0.0201`. -/
theorem mix_top_extreme_counterexample :
    (DELFX_PARAM k_user_delfx_param_shift_depth 1 DELFX_INIT).wet = 0.9998 ∧
    ¬ |(DELFX_PARAM k_user_delfx_param_shift_depth 1 DELFX_INIT).wet - 1.0201| < 0.01 ∧
    (DELFX_PARAM k_user_delfx_param_shift_depth 1 DELFX_INIT).dry = 0.0002 ∧
    ¬ |(DELFX_PARAM k_user_delfx_param_shift_depth 1 DELFX_INIT).dry - (-0.0201)| < 0.01 := by
  norm_num [DELFX_PARAM, k_user_delfx_param_shift_depth, k_user_delfx_param_time,
    k_user_delfx_param_depth, DELFX_INIT, abs]

/-- C4 (amended): at `v = 0.49`, `v = 0.5` and `v = 0.51` the recomputed mix
satisfies `wet + dry = 1` exactly (hence within `1e-6`); `wet(0) = 0` and
`dry(0) = 1`; at the top extreme `wet(1) = 0.9998` and `dry(1) = 0.0002`
(no overshoot above 1 at the top). -/
theorem delfx_param_mix_breakpoints (s : FxState) :
    ((DELFX_PARAM k_user_delfx_param_shift_depth 0.49 s).wet
      + (DELFX_PARAM k_user_delfx_param_shift_depth 0.49 s).dry = 1) ∧
    ((DELFX_PARAM k_user_delfx_param_shift_depth 0.5 s).wet
      + (DELFX_PARAM k_user_delfx_param_shift_depth 0.5 s).dry = 1) ∧
    ((DELFX_PARAM k_user_delfx_param_shift_depth 0.51 s).wet
      + (DELFX_PARAM k_user_delfx_param_shift_depth 0.51 s).dry = 1) ∧
    ((DELFX_PARAM k_user_delfx_param_shift_depth 0 s).wet = 0 ∧
     (DELFX_PARAM k_user_delfx_param_shift_depth 0 s).dry = 1) ∧
    ((DELFX_PARAM k_user_delfx_param_shift_depth 1 s).wet = 0.9998 ∧
     (DELFX_PARAM k_user_delfx_param_shift_depth 1 s).dry = 0.0002) := by
  norm_num [DELFX_PARAM, k_user_delfx_param_shift_depth, k_user_delfx_param_time,
    k_user_delfx_param_depth]

/-- One `DELFX_PARAM` call preserves `wet + dry = 1`: the shift-depth branch
reassigns the pair as `(s_mix, 1 - s_mix)`, and the other branches leave the
pair untouched. -/
lemma DELFX_PARAM_wet_dry_sum (idx : ℕ) (v : ℚ) (s : FxState)
    (h : s.wet + s.dry = 1) :
    (DELFX_PARAM idx v s).wet + (DELFX_PARAM idx v s).dry = 1 := by
  unfold DELFX_PARAM
  split_ifs <;> simp_all

/-- C10: after `DELFX_INIT` and after every sequence of `DELFX_PARAM` calls
(any indices, any values), the mix coefficients satisfy `wet + dry = 1`
exactly. -/
theorem wet_plus_dry_always_one (calls : List (ℕ × ℚ)) :
    (paramCalls calls DELFX_INIT).wet + (paramCalls calls DELFX_INIT).dry = 1 := by
  have gen : ∀ (cs : List (ℕ × ℚ)) (s : FxState), s.wet + s.dry = 1 →
      (paramCalls cs s).wet + (paramCalls cs s).dry = 1 := by
    intro cs
    induction cs with
    | nil => intro s h; simpa [paramCalls] using h
    | cons c rest ih =>
      intro s h
      simpa [paramCalls] using ih _ (DELFX_PARAM_wet_dry_sum c.1 c.2 s h)
  exact gen calls DELFX_INIT (by norm_num [DELFX_INIT])

/-- For a non-negative knob value the C truncation in the time handler is the
floor of `v * 14`. -/
lemma divIndexRaw_eq_floor (v : ℚ) (hv : 0 ≤ v) : divIndexRaw v = ⌊v * 14⌋ := by
  unfold divIndexRaw ratTrunc NUM_DELAY_DIVISIONS
  rw [if_neg]
  · norm_num
  · push_neg
    positivity

/-- For a knob value in `[0, 1]` the raw division index lies in `[0, 14]`. -/
lemma divIndexRaw_bounds (v : ℚ) (hv0 : 0 ≤ v) (hv1 : v ≤ 1) :
    0 ≤ divIndexRaw v ∧ divIndexRaw v ≤ 14 := by
  rw [divIndexRaw_eq_floor v hv0]
  constructor
  · exact Int.floor_nonneg.mpr (by positivity)
  · calc ⌊v * 14⌋ ≤ ⌊(14 : ℚ)⌋ := Int.floor_le_floor (by linarith)
      _ = 14 := by norm_num

/-- The division table is sorted in non-decreasing order. -/
lemma delayDivisions_sorted : delayDivisions.Sorted (· ≤ ·) := by
  simp [delayDivisions, List.sorted_cons]
  norm_num

/-- The failsafe clamp is the identity on indices already in `[0, 14]`. -/
lemma divClamp_id (i : ℤ) (h0 : 0 ≤ i) (h14 : i ≤ 14) : divClamp i = i := by
  unfold divClamp NUM_DELAY_DIVISIONS
  rw [if_neg]
  push_neg
  constructor <;> omega

/-- C9: for every normalized knob value in `[0, 1]` the computed
division-table index lies in `[0, 14]` so that the failsafe branch is not
taken; and whenever an index does fall outside `[0, 14]`, the failsafe
replaces it with the last valid entry's index `NUM_DELAY_DIVISIONS - 1 = 14`. -/
theorem div_index_in_bounds_and_failsafe :
    (∀ v : ℚ, 0 ≤ v → v ≤ 1 →
      0 ≤ divIndexRaw v ∧ divIndexRaw v ≤ 14 ∧
      divClamp (divIndexRaw v) = divIndexRaw v) ∧
    (∀ i : ℤ, (NUM_DELAY_DIVISIONS : ℤ) ≤ i ∨ i < 0 →
      divClamp i = (NUM_DELAY_DIVISIONS : ℤ) - 1) := by
  constructor
  · intro v hv0 hv1
    obtain ⟨hl, hr⟩ := divIndexRaw_bounds v hv0 hv1
    exact ⟨hl, hr, divClamp_id _ hl hr⟩
  · intro i hi
    unfold divClamp
    rw [if_pos hi]

/-- Witness for C9 at `v = 2/3` and at the out-of-range index `i = 99`. -/
theorem div_index_in_bounds_and_failsafe_witness :
    (0 ≤ divIndexRaw (2/3) ∧ divIndexRaw (2/3) ≤ 14 ∧
      divClamp (divIndexRaw (2/3)) = divIndexRaw (2/3)) ∧
    divClamp 99 = (NUM_DELAY_DIVISIONS : ℤ) - 1 :=
  ⟨div_index_in_bounds_and_failsafe.1 (2/3) (by norm_num) (by norm_num),
   div_index_in_bounds_and_failsafe.2 99 (by norm_num [NUM_DELAY_DIVISIONS])⟩

/-- C8: in the time-knob handler, knob value `0` selects the smallest
division multiplier `0.015625`, knob value `1` selects the largest
multiplier `1`, and the selected multiplier is monotonically non-decreasing
in the knob value over `[0, 1]`. -/
theorem delfx_param_time_division_selection (s : FxState) :
    (DELFX_PARAM k_user_delfx_param_time 0 s).multiplier = 0.015625 ∧
    (DELFX_PARAM k_user_delfx_param_time 1 s).multiplier = 1 ∧
    (∀ v v' : ℚ, 0 ≤ v → v ≤ v' → v' ≤ 1 →
      (DELFX_PARAM k_user_delfx_param_time v s).multiplier ≤
        (DELFX_PARAM k_user_delfx_param_time v' s).multiplier) := by
  have hmul : ∀ v : ℚ, (DELFX_PARAM k_user_delfx_param_time v s).multiplier
      = delayDivisions.getD (divClamp (divIndexRaw v)).toNat 0 := by
    intro v
    simp [DELFX_PARAM, k_user_delfx_param_time]
  refine ⟨?_, ?_, ?_⟩
  · rw [hmul]
    norm_num [divIndexRaw, ratTrunc, divClamp, NUM_DELAY_DIVISIONS, delayDivisions]
  · rw [hmul]
    norm_num [divIndexRaw, ratTrunc, divClamp, NUM_DELAY_DIVISIONS, delayDivisions]
    rfl
  · intro v v' hv0 hvv hv1
    rw [hmul, hmul]
    have hv'0 : (0:ℚ) ≤ v' := le_trans hv0 hvv
    have hv1' : v ≤ 1 := le_trans hvv hv1
    obtain ⟨hl, hr⟩ := divIndexRaw_bounds v hv0 hv1'
    obtain ⟨hl', hr'⟩ := divIndexRaw_bounds v' hv'0 hv1
    have hci : divClamp (divIndexRaw v) = divIndexRaw v := divClamp_id _ hl hr
    have hci' : divClamp (divIndexRaw v') = divIndexRaw v' := divClamp_id _ hl' hr'
    rw [hci, hci']
    have hij : (divIndexRaw v).toNat ≤ (divIndexRaw v').toNat := by
      have : divIndexRaw v ≤ divIndexRaw v' := by
        rw [divIndexRaw_eq_floor v hv0, divIndexRaw_eq_floor v' hv'0]
        exact Int.floor_le_floor (by linarith)
      omega
    have hjlen : (divIndexRaw v').toNat < delayDivisions.length := by
      have : delayDivisions.length = 15 := by rfl
      omega
    have hilen : (divIndexRaw v).toNat < delayDivisions.length := by omega
    rw [List.getD_eq_getElem delayDivisions 0 hilen,
      List.getD_eq_getElem delayDivisions 0 hjlen]
    have := delayDivisions_sorted.rel_get_of_le
      (a := ⟨(divIndexRaw v).toNat, hilen⟩) (b := ⟨(divIndexRaw v').toNat, hjlen⟩)
      (by exact hij)
    simpa [List.get_eq_getElem] using this

/-- Witness for C8's monotonicity part at `v = 1/4 ≤ v' = 3/4`. -/
theorem delfx_param_time_division_selection_witness :
    (DELFX_PARAM k_user_delfx_param_time (1/4) DELFX_INIT).multiplier ≤
      (DELFX_PARAM k_user_delfx_param_time (3/4) DELFX_INIT).multiplier :=
  (delfx_param_time_division_selection DELFX_INIT).2.2 (1/4) (3/4)
    (by norm_num) (by norm_num) (by norm_num)

/-- The per-sample loop never touches `targetDelayTime`. -/
lemma processSamples_targetDelayTime (xs : List (ℚ × ℚ)) :
    ∀ s : FxState, (processSamples xs s).2.targetDelayTime = s.targetDelayTime := by
  induction xs with
  | nil => intro s; rfl
  | cons a rest ih =>
    intro s
    simpa [processSamples] using ih (processSample a s).2

/-- C5 counterexample: the non-finite tempo `+∞` is not caught by the
`bpmF <= 0` failsafe (IEEE comparison `+∞ <= 0` is false), so it is *not*
substituted with `MIN_BPM`, contrary to the claim that every non-finite
tempo is. -/
theorem bpm_failsafe_nonfinite_counterexample :
    FloatVal.isFinite FloatVal.posInf = false ∧
    bpmFailsafe FloatVal.posInf = FloatVal.posInf ∧
    FloatVal.posInf ≠ FloatVal.fin MIN_BPM := by
  refine ⟨rfl, ?_, by simp⟩
  simp [bpmFailsafe, FloatVal.le0]

/-- C5 (amended): the failsafe substitutes `MIN_BPM = 56` exactly for tempo
values that compare `≤ 0` (all non-positive finite tempos, and `-∞`); any
tempo comparing `> 0` — every positive finite value, but also `+∞` and `NaN`,
which the IEEE test `bpmF <= 0` does not catch — is used unchanged.  In
`DELFX_PROCESS` the (rational-valued) substitution happens before
`targetDelayTime` is computed: a tempo `≤ 0` yields the `MIN_BPM` target and
a positive tempo is used as is. -/
theorem bpm_failsafe_le_zero :
    (∀ q : ℚ, q ≤ 0 → bpmFailsafe (FloatVal.fin q) = FloatVal.fin MIN_BPM) ∧
    (∀ q : ℚ, 0 < q → bpmFailsafe (FloatVal.fin q) = FloatVal.fin q) ∧
    bpmFailsafe FloatVal.negInf = FloatVal.fin MIN_BPM ∧
    bpmFailsafe FloatVal.posInf = FloatVal.posInf ∧
    bpmFailsafe FloatVal.nan = FloatVal.nan ∧
    (∀ (bpmF0 : ℚ) (xn : List (ℚ × ℚ)) (s : FxState),
      (bpmF0 ≤ 0 →
        (DELFX_PROCESS bpmF0 xn s).2.targetDelayTime
          = SAMPLE_RATE * (60 / MIN_BPM) * NUM_NOTES_PER_BEAT * s.multiplier) ∧
      (0 < bpmF0 →
        (DELFX_PROCESS bpmF0 xn s).2.targetDelayTime
          = SAMPLE_RATE * (60 / bpmF0) * NUM_NOTES_PER_BEAT * s.multiplier)) := by
  refine ⟨?_, ?_, by simp [bpmFailsafe, FloatVal.le0],
    by simp [bpmFailsafe, FloatVal.le0], by simp [bpmFailsafe, FloatVal.le0], ?_⟩
  · intro q hq
    simp [bpmFailsafe, FloatVal.le0, hq]
  · intro q hq
    simp [bpmFailsafe, FloatVal.le0, not_le.mpr hq]
  · intro bpmF0 xn s
    constructor
    · intro h
      unfold DELFX_PROCESS
      rw [processSamples_targetDelayTime]
      simp [h]
    · intro h
      unfold DELFX_PROCESS
      rw [processSamples_targetDelayTime]
      simp [not_le.mpr h]

/-- Witness for C5 (amended): the tempo `-3` is substituted, and a
`DELFX_PROCESS` call at tempo `-3` computes the `MIN_BPM` target. -/
theorem bpm_failsafe_le_zero_witness :
    bpmFailsafe (FloatVal.fin (-3)) = FloatVal.fin MIN_BPM ∧
    (DELFX_PROCESS (-3) [] DELFX_INIT).2.targetDelayTime
      = SAMPLE_RATE * (60 / MIN_BPM) * NUM_NOTES_PER_BEAT * DELFX_INIT.multiplier :=
  ⟨bpm_failsafe_le_zero.1 (-3) (by norm_num),
   (bpm_failsafe_le_zero.2.2.2.2.2 (-3) [] DELFX_INIT).1 (by norm_num)⟩

/-- One glide step contracts the distance to the target by the constant
factor `1 - 1 / DELAY_GLIDE_RATE`. -/
lemma glideStep_sub (target x : ℚ) :
    target - glideStep target x = (target - x) * (1 - 1 / DELAY_GLIDE_RATE) := by
  unfold glideStep DELAY_GLIDE_RATE
  ring

/-- Closed form of the iterated glide distance. -/
lemma glideIter_sub (target c : ℚ) (n : ℕ) :
    target - glideIter target c n = (target - c) * (1 - 1 / DELAY_GLIDE_RATE) ^ n := by
  induction n with
  | zero => simp [glideIter]
  | succ n ih =>
    calc target - glideIter target c (n + 1)
        = (target - glideIter target c n) * (1 - 1 / DELAY_GLIDE_RATE) := by
          simpa [glideIter] using glideStep_sub target (glideIter target c n)
      _ = (target - c) * (1 - 1 / DELAY_GLIDE_RATE) ^ (n + 1) := by
          rw [ih]; ring

/-- C7: for a fixed target, the per-sample glide step
`current += (target - current) / DELAY_GLIDE_RATE` (with the glide rate
`12000 ≥ 1`) moves `currentDelayTime` toward the target monotonically with no
overshoot or oscillation: the difference `target - current` is scaled each
sample by the fixed factor `1 - 1/DELAY_GLIDE_RATE ∈ (0, 1)` (so its sign
never flips), its absolute value is non-increasing, and for every `ε > 0` it
eventually stays below `ε`. -/
theorem glide_monotone_convergence (target c : ℚ) :
    (1 : ℚ) ≤ DELAY_GLIDE_RATE ∧
    (∀ n, target - glideIter target c (n + 1)
        = (target - glideIter target c n) * (1 - 1 / DELAY_GLIDE_RATE)) ∧
    (0 : ℚ) < 1 - 1 / DELAY_GLIDE_RATE ∧
    (∀ n, |target - glideIter target c (n + 1)| ≤ |target - glideIter target c n|) ∧
    (∀ ε : ℚ, 0 < ε → ∃ N, ∀ n, N ≤ n → |target - glideIter target c n| < ε) := by
  have hrate : (DELAY_GLIDE_RATE : ℚ) = 12000 := rfl
  have hr0 : (0 : ℚ) < 1 - 1 / DELAY_GLIDE_RATE := by rw [hrate]; norm_num
  have hr1 : (1 - 1 / DELAY_GLIDE_RATE : ℚ) < 1 := by rw [hrate]; norm_num
  have hstep : ∀ n, target - glideIter target c (n + 1)
      = (target - glideIter target c n) * (1 - 1 / DELAY_GLIDE_RATE) := by
    intro n
    simpa [glideIter] using glideStep_sub target (glideIter target c n)
  refine ⟨by rw [hrate]; norm_num, hstep, hr0, ?_, ?_⟩
  · intro n
    rw [hstep n, abs_mul, abs_of_pos hr0]
    exact mul_le_of_le_one_right (abs_nonneg _) (le_of_lt hr1)
  · intro ε hε
    by_cases hc : target - c = 0
    · refine ⟨0, fun n _ => ?_⟩
      rw [glideIter_sub, hc, zero_mul, abs_zero]
      exact hε
    · have hD : 0 < |target - c| := abs_pos.mpr hc
      obtain ⟨N, hN⟩ := exists_pow_lt_of_lt_one (div_pos hε hD) hr1
      refine ⟨N, fun n hn => ?_⟩
      rw [glideIter_sub, abs_mul, abs_pow, abs_of_pos hr0]
      have hpow : (1 - 1 / DELAY_GLIDE_RATE : ℚ) ^ n
          ≤ (1 - 1 / DELAY_GLIDE_RATE : ℚ) ^ N :=
        pow_le_pow_of_le_one (le_of_lt hr0) (le_of_lt hr1) hn
      calc |target - c| * (1 - 1 / DELAY_GLIDE_RATE) ^ n
          ≤ |target - c| * (1 - 1 / DELAY_GLIDE_RATE) ^ N :=
            mul_le_mul_of_nonneg_left hpow (abs_nonneg _)
        _ < |target - c| * (ε / |target - c|) :=
            mul_lt_mul_of_pos_left hN hD
        _ = ε := by field_simp

/-- Witness for C7: from `current = 0` toward target `1`, the glide
eventually stays within `1/2` of the target. -/
theorem glide_monotone_convergence_witness :
    ∃ N, ∀ n, N ≤ n → |(1 : ℚ) - glideIter 1 0 n| < 1/2 :=
  (glide_monotone_convergence 1 0).2.2.2.2 (1/2) (by norm_num)

/-- Reading any position of an all-zero delay line yields `0`. -/
lemma readFrac_zero_line (pos : ℚ) (line : ℕ → ℚ) (h : ∀ i, line i = 0) :
    readFrac pos line = 0 := by
  simp [readFrac, linintf, h]

/-- Both delay lines identically zero. -/
def linesZero (s : FxState) : Prop :=
  (∀ i, s.delayLine_L i = 0) ∧ (∀ i, s.delayLine_R i = 0)

/-- A zero input frame hitting zero delay lines produces a zero output frame
and leaves the lines zero. -/
lemma processSample_zero (s : FxState) (h : linesZero s) :
    (processSample (0, 0) s).1 = (0, 0) ∧ linesZero (processSample (0, 0) s).2 := by
  obtain ⟨hL, hR⟩ := h
  have hsigR : readFrac (wrapReadIndex s.delayLine_Wr
      (glideStep s.targetDelayTime s.currentDelayTime)) s.delayLine_R = 0 :=
    readFrac_zero_line _ _ hR
  have hL1 : ∀ i, writeLine s.delayLine_L s.delayLine_Wr
      (readFrac (wrapReadIndex s.delayLine_Wr
        (glideStep s.targetDelayTime s.currentDelayTime)) s.delayLine_R * s.valDepth) i = 0 := by
    intro i
    by_cases hi : i = s.delayLine_Wr <;> simp [writeLine, hi, hsigR, hL]
  have hsigL : readFrac (wrapReadIndex s.delayLine_Wr
      (glideStep s.targetDelayTime s.currentDelayTime))
      (writeLine s.delayLine_L s.delayLine_Wr
        (readFrac (wrapReadIndex s.delayLine_Wr
          (glideStep s.targetDelayTime s.currentDelayTime)) s.delayLine_R * s.valDepth)) = 0 :=
    readFrac_zero_line _ _ hL1
  refine ⟨?_, ?_, ?_⟩
  · simp only [processSample]
    rw [hsigL, hsigR]
    norm_num
  · intro i
    simpa only [processSample] using hL1 i
  · intro i
    simp only [processSample]
    by_cases hi : i = s.delayLine_Wr
    · simp [writeLine, hi, hsigL]
    · simp [writeLine, hi, hR]

/-- The sample loop on an all-zero block from zero delay lines returns the
zero block and keeps the lines zero. -/
lemma processSamples_zero (n : ℕ) :
    ∀ s : FxState, linesZero s →
      (processSamples (List.replicate n ((0:ℚ), (0:ℚ))) s).1
          = List.replicate n ((0:ℚ), (0:ℚ)) ∧
      linesZero (processSamples (List.replicate n ((0:ℚ), (0:ℚ))) s).2 := by
  induction n with
  | zero => intro s h; exact ⟨rfl, h⟩
  | succ n ih =>
    intro s h
    obtain ⟨hout, hnext⟩ := processSample_zero s h
    obtain ⟨ihout, ihlines⟩ := ih (processSample (0, 0) s).2 hnext
    constructor
    · rw [List.replicate_succ]
      show (processSample ((0:ℚ), (0:ℚ)) s).1 ::
          (processSamples (List.replicate n ((0:ℚ), (0:ℚ))) (processSample (0, 0) s).2).1
        = ((0:ℚ), (0:ℚ)) :: List.replicate n ((0:ℚ), (0:ℚ))
      rw [hout, ihout]
    · rw [List.replicate_succ]
      show linesZero
        (processSamples (List.replicate n ((0:ℚ), (0:ℚ))) (processSample (0, 0) s).2).2
      exact ihlines

/-- C2: after `DELFX_INIT`, any sequence of `DELFX_PROCESS` calls — each with
its own tempo reading and frame count, each fed an all-zero input buffer —
produces an all-zero output buffer every time (no residual energy ever
appears). -/
theorem delfx_process_zero_input (calls : List (ℚ × ℕ)) :
    (processZeroCalls calls DELFX_INIT).1
      = calls.map (fun c => List.replicate c.2 ((0:ℚ), (0:ℚ))) := by
  have gen : ∀ (cs : List (ℚ × ℕ)) (s : FxState), linesZero s →
      (processZeroCalls cs s).1
        = cs.map (fun c => List.replicate c.2 ((0:ℚ), (0:ℚ))) := by
    intro cs
    induction cs with
    | nil => intro s _; rfl
    | cons c rest ih =>
      intro s h
      have hz : linesZero { s with targetDelayTime :=
          SAMPLE_RATE * (60 / if c.1 ≤ 0 then MIN_BPM else c.1) * NUM_NOTES_PER_BEAT
            * s.multiplier } := h
      obtain ⟨hout, hlines⟩ := processSamples_zero c.2 _ hz
      simp only [processZeroCalls, DELFX_PROCESS, List.map_cons]
      exact congrArg₂ _ hout (ih _ hlines)
  exact gen calls DELFX_INIT ⟨fun _ => rfl, fun _ => rfl⟩

/-! ### Ping-pong impulse response machinery (C1) -/

/-- When the read position is a whole number `B` (no fractional part), not
equal to the write cursor, one `processSample` step collapses to: output the
mixed delayed samples at `B`, write the right input plus the attenuated
delayed left sample into the right line, and the attenuated delayed right
sample into the left line. -/
lemma processSample_read_eq (s : FxState) (inL inR : ℚ) (B : ℕ)
    (hB : wrapReadIndex s.delayLine_Wr
        (glideStep s.targetDelayTime s.currentDelayTime) = (B : ℚ))
    (hBlt : B + 1 < DELAY_LINE_SIZE)
    (hBne : B ≠ s.delayLine_Wr) :
    processSample (inL, inR) s =
      ((inL * s.dry + s.delayLine_L B * s.wet,
        inR * s.dry + s.delayLine_R B * s.wet),
       { s with
          delayLine_L := writeLine s.delayLine_L s.delayLine_Wr
            (s.delayLine_R B * s.valDepth)
          delayLine_R := writeLine s.delayLine_R s.delayLine_Wr
            (inR + s.delayLine_L B * s.valDepth)
          delayLine_Wr := (s.delayLine_Wr + 1) % DELAY_LINE_SIZE
          currentDelayTime := glideStep s.targetDelayTime s.currentDelayTime }) := by
  have hmod : B % DELAY_LINE_SIZE = B := Nat.mod_eq_of_lt (by omega)
  have hRead : readFrac (wrapReadIndex s.delayLine_Wr
      (glideStep s.targetDelayTime s.currentDelayTime)) s.delayLine_R
        = s.delayLine_R B := by
    rw [hB, readFrac_natCast, hmod]
  have hReadL : readFrac (wrapReadIndex s.delayLine_Wr
      (glideStep s.targetDelayTime s.currentDelayTime))
      (writeLine s.delayLine_L s.delayLine_Wr (s.delayLine_R B * s.valDepth))
        = s.delayLine_L B := by
    rw [hB, readFrac_natCast, hmod, writeLine_other _ _ _ _ hBne]
  simp only [processSample]
  rw [hRead, hReadL, writeLine_self, writeLine_writeLine]

/-- Shifting the input stream by one frame commutes with stepping the state. -/
lemma runState_shift (inp : ℕ → ℚ × ℚ) (s : FxState) :
    ∀ n, runState (fun k => inp (k + 1)) (processSample (inp 0) s).2 n
      = runState inp s (n + 1) := by
  intro n
  induction n with
  | zero => rfl
  | succ n ih => simp [runState, ih]

/-- The sample loop over `List.ofFn` computes exactly the `runOut` stream and
ends in the `runState` state. -/
lemma processSamples_ofFn (N : ℕ) :
    ∀ (inp : ℕ → ℚ × ℚ) (s : FxState),
      processSamples (List.ofFn fun i : Fin N => inp i) s
        = (List.ofFn fun i : Fin N => runOut inp s i, runState inp s N) := by
  induction N with
  | zero => intro inp s; rfl
  | succ N ih =>
    intro inp s
    rw [List.ofFn_succ, List.ofFn_succ (f := fun i : Fin (N + 1) => runOut inp s i)]
    simp only [Fin.val_succ, Fin.val_zero]
    show ((processSample (inp 0) s).1 ::
        (processSamples (List.ofFn fun i : Fin N => inp (i + 1))
          (processSample (inp 0) s).2).1,
      (processSamples (List.ofFn fun i : Fin N => inp (i + 1))
          (processSample (inp 0) s).2).2) = _
    rw [ih (fun k => inp (k + 1)) (processSample (inp 0) s).2]
    dsimp only
    refine congrArg₂ _ (congrArg₂ _ rfl ?_) (runState_shift inp s N)
    refine congrArg _ (funext fun i => ?_)
    show runOut (fun k => inp (k + 1)) (processSample (inp 0) s).2 i
      = runOut inp s (i + 1)
    unfold runOut
    rw [runState_shift inp s i]

/-- When the settled delay time `T` still exceeds the cursor `n`, the wrap
branch fires and the whole-number read position is `262143 + n - T`. -/
lemma wrapReadIndex_wrap (n T : ℕ) (h1 : n < T) (hT : T ≤ 262143 + n) :
    wrapReadIndex n (T : ℚ) = ((262143 + n - T : ℕ) : ℚ) := by
  unfold wrapReadIndex
  rw [if_pos (by
    rw [sub_neg]
    exact_mod_cast h1)]
  rw [Nat.cast_sub hT]
  push_cast
  norm_num [DELAY_LINE_SIZE_MASK]
  ring

/-- Once the cursor has reached the settled delay time `T`, the read position
is the whole number `n - T`. -/
lemma wrapReadIndex_direct (n T : ℕ) (h1 : T ≤ n) :
    wrapReadIndex n (T : ℚ) = ((n - T : ℕ) : ℚ) := by
  unfold wrapReadIndex
  rw [if_neg (by
    rw [not_lt, sub_nonneg]
    exact_mod_cast h1)]
  rw [Nat.cast_sub h1]

/-- One step of the impulse-response run preserves the invariant and emits
exactly the expected output frame. -/
lemma pingPong_step (T : ℕ) (d mult w dr : ℚ) (hT1 : 1 ≤ T) (hT2 : T ≤ 65535)
    (n : ℕ) (hn : n ≤ 3 * T) (s : FxState)
    (h : pingPongInv T d mult w dr n s) :
    (processSample (impulseInput n) s).1 = pingPongExpected T d w dr n ∧
    pingPongInv T d mult w dr (n + 1) (processSample (impulseInput n) s).2 := by
  obtain ⟨hwr, hcur, htgt, hdep, hmul, hwet, hdry, hR, hL⟩ := h
  have hsz : DELAY_LINE_SIZE = 262144 := rfl
  have hglide : glideStep s.targetDelayTime s.currentDelayTime = (T : ℚ) := by
    rw [hcur, htgt]
    unfold glideStep
    ring
  have hBex : ∃ B : ℕ, wrapReadIndex s.delayLine_Wr
        (glideStep s.targetDelayTime s.currentDelayTime) = (B : ℚ) ∧
      ((n < T ∧ B = 262143 + n - T) ∨ (T ≤ n ∧ B = n - T)) := by
    rcases Nat.lt_or_ge n T with h1 | h1
    · exact ⟨262143 + n - T,
        by rw [hglide, hwr]; exact wrapReadIndex_wrap n T h1 (by omega),
        Or.inl ⟨h1, rfl⟩⟩
    · exact ⟨n - T,
        by rw [hglide, hwr]; exact wrapReadIndex_direct n T h1,
        Or.inr ⟨h1, rfl⟩⟩
  obtain ⟨B, hBeq, hBor⟩ := hBex
  have hBlt : B + 1 < DELAY_LINE_SIZE := by rw [hsz]; omega
  have hBne : B ≠ s.delayLine_Wr := by rw [hwr]; omega
  have hps := processSample_read_eq s 0 (if n = 0 then (1:ℚ) else 0) B hBeq hBlt hBne
  rw [show impulseInput n = ((0:ℚ), if n = 0 then (1:ℚ) else 0) from rfl, hps]
  constructor
  · show ((0:ℚ) * s.dry + s.delayLine_L B * s.wet,
        (if n = 0 then (1:ℚ) else 0) * s.dry + s.delayLine_R B * s.wet)
      = pingPongExpected T d w dr n
    rw [hwet, hdry, hR B, hL B]
    unfold pingPongExpected
    split_ifs <;> first | omega | norm_num
  · refine ⟨?_, hglide, htgt, hdep, hmul, hwet, hdry, ?_, ?_⟩
    · show (s.delayLine_Wr + 1) % DELAY_LINE_SIZE = n + 1
      rw [hwr, hsz]
      omega
    · intro i
      show writeLine s.delayLine_R s.delayLine_Wr
          ((if n = 0 then (1:ℚ) else 0) + s.delayLine_L B * s.valDepth) i = _
      rw [hwr, hdep, hL B]
      by_cases hi : i = n
      · subst hi
        rw [writeLine_self]
        split_ifs <;> first | omega | ring
      · rw [writeLine_other _ _ _ _ hi, hR i]
        split_ifs <;> first | rfl | omega
    · intro i
      show writeLine s.delayLine_L s.delayLine_Wr
          (s.delayLine_R B * s.valDepth) i = _
      rw [hwr, hdep, hR B]
      by_cases hi : i = n
      · subst hi
        rw [writeLine_self]
        split_ifs <;> first | omega | ring
      · rw [writeLine_other _ _ _ _ hi, hL i]
        split_ifs <;> first | rfl | omega

/-- The invariant holds along the whole impulse-response run. -/
lemma pingPong_run_inv (T : ℕ) (d mult w dr : ℚ) (hT1 : 1 ≤ T) (hT2 : T ≤ 65535)
    (s1 : FxState) (h0 : pingPongInv T d mult w dr 0 s1) :
    ∀ n, n ≤ 3 * T + 1 → pingPongInv T d mult w dr n (runState impulseInput s1 n) := by
  intro n
  induction n with
  | zero => intro _; exact h0
  | succ n ih =>
    intro hn1
    exact (pingPong_step T d mult w dr hT1 hT2 n (by omega) _ (ih (by omega))).2

/-- C1 counterexample: with feedback depth `d = 1/2`, full wet (`w = 1`,
`dr = 0`) and a stable delay of `T = 2` samples (tempo `5760000` makes the
recomputed target exactly `2`), a unit impulse fed on the right channel only
produces *no* echo on the left channel at offset `T = 2` — the output frame
there is `(0, 1)`: the first echo appears on the *right* channel (amplitude
`1`, not `d`), while the claim predicts a left echo of amplitude `d = 1/2`
(the interpolation error is zero here since the delay is a whole number of
samples). -/
theorem pingpong_claim_counterexample :
    ((DELFX_PROCESS 5760000 [(0, 1), (0, 0), (0, 0)]
        (pingPongStart 2 (1/2) 1 1 0)).1).getD 2 (0, 0) = ((0 : ℚ), (1 : ℚ)) ∧
    ((0 : ℚ) ≠ (1/2 : ℚ)) := by
  constructor
  · norm_num [DELFX_PROCESS, processSamples, processSample, pingPongStart, DELFX_INIT,
      glideStep, wrapReadIndex, readFrac, linintf, writeLine, SAMPLE_RATE, MIN_BPM,
      NUM_NOTES_PER_BEAT, DELAY_GLIDE_RATE, DELAY_LINE_SIZE, DELAY_LINE_SIZE_MASK]
  · norm_num

/-- C1 (amended): for every feedback depth `d ∈ [0, 1]`, mix coefficients
`w`/`dr`, and stable delay time of `T` whole samples (`1 ≤ T ≤ 65535`, the
tempo recomputation fixing the target at `T`), feeding a single unit impulse
on the right input channel only through `DELFX_PROCESS` produces: the dry
click `(0, dr)` at offset `0`, a first echo of amplitude `1 · w` on the
*right* channel at offset `T`, an echo of amplitude `d · w` on the *left*
channel at offset `2T`, an echo of amplitude `d² · w` on the right channel at
offset `3T` (each bounce attenuated by `d`, decaying geometrically), and
silence at every other offset up to `3T`; in particular the left channel
produces no echo before offset `2T`. -/
theorem delfx_process_pingpong_impulse (T : ℕ) (d mult w dr bpmF0 : ℚ)
    (hT1 : 1 ≤ T) (hT2 : T ≤ 65535) (hd0 : 0 ≤ d) (hd1 : d ≤ 1)
    (hbpm : 0 < bpmF0)
    (htgt : SAMPLE_RATE * (60 / bpmF0) * NUM_NOTES_PER_BEAT * mult = (T : ℚ)) :
    ((DELFX_PROCESS bpmF0 (List.ofFn fun i : Fin (3 * T + 1) => impulseInput i)
        (pingPongStart T d mult w dr)).1).length = 3 * T + 1 ∧
    ∀ k, k ≤ 3 * T →
      ((DELFX_PROCESS bpmF0 (List.ofFn fun i : Fin (3 * T + 1) => impulseInput i)
          (pingPongStart T d mult w dr)).1).getD k (0, 0)
        = pingPongExpected T d w dr k := by
  have hDP : DELFX_PROCESS bpmF0
      (List.ofFn fun i : Fin (3 * T + 1) => impulseInput i)
      (pingPongStart T d mult w dr)
    = processSamples (List.ofFn fun i : Fin (3 * T + 1) => impulseInput i)
        { pingPongStart T d mult w dr with
            targetDelayTime := SAMPLE_RATE
              * (60 / (if bpmF0 ≤ 0 then MIN_BPM else bpmF0)) * NUM_NOTES_PER_BEAT
              * (pingPongStart T d mult w dr).multiplier } := rfl
  rw [hDP, processSamples_ofFn]
  have h0 : pingPongInv T d mult w dr 0
      { pingPongStart T d mult w dr with
          targetDelayTime := SAMPLE_RATE
            * (60 / (if bpmF0 ≤ 0 then MIN_BPM else bpmF0)) * NUM_NOTES_PER_BEAT
            * (pingPongStart T d mult w dr).multiplier } := by
    refine ⟨rfl, rfl, ?_, rfl, rfl, rfl, rfl, ?_, ?_⟩
    · show SAMPLE_RATE * (60 / (if bpmF0 ≤ 0 then MIN_BPM else bpmF0))
          * NUM_NOTES_PER_BEAT * (pingPongStart T d mult w dr).multiplier = (T : ℚ)
      rw [if_neg (not_le.mpr hbpm)]
      exact htgt
    · intro i
      show (0 : ℚ) = _
      norm_num
    · intro i
      show (0 : ℚ) = _
      norm_num
  have hinv := pingPong_run_inv T d mult w dr hT1 hT2 _ h0
  constructor
  · simp
  · intro k hk
    have hklt : k < 3 * T + 1 := by omega
    have hlen : k < (List.ofFn fun i : Fin (3 * T + 1) =>
        runOut impulseInput
          { pingPongStart T d mult w dr with
              targetDelayTime := SAMPLE_RATE
                * (60 / (if bpmF0 ≤ 0 then MIN_BPM else bpmF0)) * NUM_NOTES_PER_BEAT
                * (pingPongStart T d mult w dr).multiplier } i).length := by
      simpa using hklt
    rw [show ((List.ofFn fun i : Fin (3 * T + 1) =>
        runOut impulseInput
          { pingPongStart T d mult w dr with
              targetDelayTime := SAMPLE_RATE
                * (60 / (if bpmF0 ≤ 0 then MIN_BPM else bpmF0)) * NUM_NOTES_PER_BEAT
                * (pingPongStart T d mult w dr).multiplier } i,
        runState impulseInput
          { pingPongStart T d mult w dr with
              targetDelayTime := SAMPLE_RATE
                * (60 / (if bpmF0 ≤ 0 then MIN_BPM else bpmF0)) * NUM_NOTES_PER_BEAT
                * (pingPongStart T d mult w dr).multiplier } (3 * T + 1)).1)
      = (List.ofFn fun i : Fin (3 * T + 1) =>
        runOut impulseInput
          { pingPongStart T d mult w dr with
              targetDelayTime := SAMPLE_RATE
                * (60 / (if bpmF0 ≤ 0 then MIN_BPM else bpmF0)) * NUM_NOTES_PER_BEAT
                * (pingPongStart T d mult w dr).multiplier } i) from rfl]
    rw [List.getD_eq_getElem _ _ hlen, List.getElem_ofFn]
    exact (pingPong_step T d mult w dr hT1 hT2 k (by omega) _ (hinv k (by omega))).1

/-- Witness for C1 (amended) at `T = 2`, `d = 1/2`, `w = 1`, `dr = 0`,
tempo `5760000`: the left-channel echo `d · w = 1/2` indeed appears at offset
`2T = 4`. -/
theorem delfx_process_pingpong_impulse_witness :
    ((DELFX_PROCESS 5760000 (List.ofFn fun i : Fin (3 * 2 + 1) => impulseInput i)
        (pingPongStart 2 (1/2) 1 1 0)).1).getD 4 (0, 0)
      = ((1/2 : ℚ) * 1, 0) := by
  have h := (delfx_process_pingpong_impulse 2 (1/2) 1 1 0 5760000
    (by norm_num) (by norm_num) (by norm_num) (by norm_num) (by norm_num)
    (by norm_num [SAMPLE_RATE, NUM_NOTES_PER_BEAT])).2 4 (by norm_num)
  rw [h]
  norm_num [pingPongExpected]

end BpmDelay
